import Mathlib

/-!
Verification of the `mmdemultiplex` adapter-location engine and two utility
collaborators (`util.py`).

The adapter matcher itself (`mmdemultiplex.adapters.Adapter`) is exercised by
`tests/test_adapter.py` but its module is not part of the sources at hand, so
the matcher is modelled from the specification (sections 4.2-4.5): full-length
windows are scored by Hamming distance, full matches are selected by lowest
error count with a direction-dependent tie-break, and boundary partial matches
are searched longest-overlap-first on the single boundary that the direction
rule allows.  The utility collaborators (`Fragment`, the barcode-table
callable) are translated directly from `util.py`.
-/

/-- Count of positionally mismatched symbols between two symbol sequences
(Hamming distance, substitutions only).  All uses compare slices of equal
length; on unequal lengths the comparison stops at the shorter sequence. -/
def hamming : List Char → List Char → Nat
  | a :: as, b :: bs => (if a = b then 0 else 1) + hamming as bs
  | _, _ => 0

/-- Modelled from the spec: the three candidate kinds of the data model -
a full-length window, a partial match at the query's front (query starts
with a suffix of the pattern), and a partial match at the query's back
(query ends with a prefix of the pattern). -/
inductive CandKind where
  | Full
  | FrontPart
  | BackPart
deriving DecidableEq, Repr

/-- Modelled from the spec: an ephemeral match candidate
`{kind, start, end, errors}`; the `end` boundary is called `stop` here. -/
structure Candidate where
  kind : CandKind
  start : Nat
  stop : Nat
  errors : Nat
deriving DecidableEq, Repr

/-- Modelled from the spec: the immutable matcher configuration fixed at
construction (section 3).  `report_end` is the `anchor_end` construction
argument: it selects whether the end or the start boundary of the selected
candidate is reported. -/
structure AdapterConfig where
  pattern : List Char
  max_errors : Nat
  min_overlap : Nat
  report_end : Bool
  reverse_direction : Bool
deriving DecidableEq, Repr

/-- Modelled from the spec: Hamming distance of the full-length window of the
query starting at `p` against the pattern (section 4.3 step 1). -/
def fullWindowErrors (cfg : AdapterConfig) (q : List Char) (p : Nat) : Nat :=
  hamming ((q.drop p).take cfg.pattern.length) cfg.pattern

/-- Modelled from the spec: all Full candidates within the error budget,
one for each window start `p ∈ [0, N-L]` whose Hamming distance is at most
`max_errors` (sections 4.2 step 1 / 4.3 step 1). -/
def fullCandidates (cfg : AdapterConfig) (q : List Char) : List Candidate :=
  if cfg.pattern.length ≤ q.length then
    ((List.range (q.length - cfg.pattern.length + 1)).filter
        (fun p => fullWindowErrors cfg q p ≤ cfg.max_errors)).map
      (fun p => ⟨CandKind.Full, p, p + cfg.pattern.length, fullWindowErrors cfg q p⟩)
  else []

/-- Modelled from the spec: selection key for Full candidates (section 4.4).
Lexicographic on (errors, start) in forward mode and on (errors, N - start)
in reverse mode, encoded into a single natural number; the start component is
always at most `N`, so the encoding is faithful. -/
def fullKey (reverse_direction : Bool) (N : Nat) (c : Candidate) : Nat :=
  c.errors * (N + 1) + (if reverse_direction then N - c.start else c.start)

/-- Modelled from the spec: among surviving Full candidates pick the
lowest-error one, ties broken by smallest start (forward) or largest start
(reverse) (section 4.4 Selection and Direction Rules). -/
def selectFull (cfg : AdapterConfig) (q : List Char) : Option Candidate :=
  (fullCandidates cfg q).argmin (fullKey cfg.reverse_direction q.length)

/-- Modelled from the spec: the overlap lengths tried by the boundary-partial
search, `L-1` down to `min_overlap`, longest first (section 4.3 step 3); an
overlap longer than the query itself cannot occur. -/
def overlapLengths (cfg : AdapterConfig) (N : Nat) : List Nat :=
  ((List.range (cfg.pattern.length - cfg.min_overlap)).map
      (fun i => cfg.pattern.length - 1 - i)).filter (fun k => k ≤ N)

/-- Modelled from the spec: Hamming distance over the boundary overlap of
length `k` - in forward mode the query must start with a suffix of the
pattern, in reverse mode the query must end with a prefix of the pattern
(section 4.2 step 3, Direction Rule). -/
def overlapErrors (cfg : AdapterConfig) (q : List Char) (k : Nat) : Nat :=
  if cfg.reverse_direction then
    hamming (q.drop (q.length - k)) (cfg.pattern.take k)
  else
    hamming (q.take k) (cfg.pattern.drop (cfg.pattern.length - k))

/-- Modelled from the spec: the boundary-partial candidate of overlap length
`k` - FrontPartial `{start = 0, end = k}` in forward mode, BackPartial
`{start = N-k, end = N}` in reverse mode (sections 4.4 and 4.5). -/
def overlapCandidate (cfg : AdapterConfig) (q : List Char) (k : Nat) : Candidate :=
  if cfg.reverse_direction then
    ⟨CandKind.BackPart, q.length - k, q.length, overlapErrors cfg q k⟩
  else
    ⟨CandKind.FrontPart, 0, k, overlapErrors cfg q k⟩

/-- Modelled from the spec: the boundary-partial search - scan the overlap
lengths longest first and accept the first one within the error budget
(section 4.3 step 3). -/
def selectOverlap (cfg : AdapterConfig) (q : List Char) : Option Candidate :=
  ((overlapLengths cfg q.length).find?
      (fun k => overlapErrors cfg q k ≤ cfg.max_errors)).map
    (overlapCandidate cfg q)

/-- Modelled from the spec: the selected candidate of one `locate` call -
a Full candidate when any survives the budget (Full always beats Partial),
otherwise the boundary-partial result (sections 4.3 and 4.4). -/
def selectCandidate (cfg : AdapterConfig) (q : List Char) : Option Candidate :=
  match selectFull cfg q with
  | some c => some c
  | none => selectOverlap cfg q

/-- Modelled from the spec: coordinate reporting (section 4.5) -
`boundary = report_end ? end : start`;
`reported = reverse_direction ? boundary - N : boundary`. -/
def reportPos (cfg : AdapterConfig) (N : Nat) (c : Candidate) : Int :=
  let boundary : Int := if cfg.report_end then (c.stop : Int) else (c.start : Int)
  if cfg.reverse_direction then boundary - (N : Int) else boundary

/-- Modelled from the spec: `locate(query) -> optional signed integer`
(sections 4.1-4.5).  An empty pattern always reports position `0`
(`locate_null`); otherwise the selected candidate's boundary is reported, and
absence of any qualifying candidate is the normal `None` outcome. -/
def locate (cfg : AdapterConfig) (q : List Char) : Option Int :=
  if cfg.pattern.isEmpty then some 0
  else (selectCandidate cfg q).map (reportPos cfg q.length)

/-- Modelled from the spec: matcher construction
`build(pattern, max_errors, anchor_end, min_overlap, reverse_direction)`
(sections 4.1 and 7).  A `min_overlap` larger than the pattern length is a
configuration error rejected at construction, never silently clamped. -/
def build (pattern : List Char) (max_errors : Nat) (anchor_end : Bool)
    (min_overlap : Nat) (reverse_direction : Bool) : Except String AdapterConfig :=
  if pattern.length < min_overlap then
    Except.error "minimal overlap exceeds adapter length"
  else
    Except.ok ⟨pattern, max_errors, min_overlap, anchor_end, reverse_direction⟩

/-- Data class for sequencing reads (`util.py`, `Read`). -/
structure Read where
  Name : String
  Sequence : String
  Quality : String
deriving DecidableEq, Repr

/-- Data class for single-end and paired-end reads (`util.py`, `Fragment`):
it stores the given reads, `Read1` is the first read, and `Read2` exists only
when exactly two reads were given. -/
structure Fragment where
  reads : List Read
  Read1 : Read
  Read2 : Option Read
deriving DecidableEq, Repr

/-- `Fragment.__init__` (`util.py`): `Read1 = reads[0]` (an empty argument
list raises `IndexError`, modelled as `none`) and `Read2 = reads[1]` exactly
when two reads are given. -/
def mkFragment : List Read → Option Fragment
  | [] => none
  | [r1, r2] => some ⟨[r1, r2], r1, some r2⟩
  | r :: rest => some ⟨r :: rest, r, none⟩

/-- `Fragment.copy` (`util.py`): builds
`Fragment(replace(self.Read1), replace(self.Read2))`.  `dataclasses.replace`
with no changed fields yields an equal copy; touching the never-set `Read2`
attribute of a fragment not built from two reads raises `AttributeError`,
modelled as `none`. -/
def Fragment.copy (f : Fragment) : Option Fragment :=
  match f.Read2 with
  | some r2 => mkFragment [f.Read1, r2]
  | none => none

/-- One row of the demultiplexer barcode table
(`get_df_callable_for_demultiplexer`, `util.py`); `none` in a cell models a
missing (NaN) value that `fillna` replaces with the empty string. -/
structure BarcodeRow where
  fw_barcode : Option String
  rv_barcode : Option String
  sample_name : String
  trim_start : Option String
  trim_end : Option String
deriving DecidableEq, Repr

/-- One row of the resolved per-sample configuration table
(`get_df_callable_for_demultiplexer`, `util.py`). -/
structure DemuxEntry where
  key : String
  start_barcode : String
  end_barcode : String
  trim_after_start : Option String
  trim_before_end : Option String
deriving DecidableEq, Repr

/-- `df[sample_col_name].str.replace(re.compile(r"\s+"), "_")`: every maximal
run of whitespace in the sample name is replaced by a single underscore. -/
def squashWhitespace : List Char → List Char
  | [] => []
  | c :: cs =>
    if c.isWhitespace then
      '_' :: squashWhitespace (cs.dropWhile Char.isWhitespace)
    else
      c :: squashWhitespace cs
termination_by l => l.length
decreasing_by
  · simp only [List.length_cons]
    exact Nat.lt_succ_of_le ((List.dropWhile_suffix _).sublist.length_le)
  · simp

/-- The callable produced by `get_df_callable_for_demultiplexer` (`util.py`):
fill missing barcodes with the empty string, assert that the forward-barcode
column is unique, key the table by the whitespace-squashed sample name and
return the renamed columns (with the trim columns only when they were
configured).  The failed `assert` is modelled as `Except.error`. -/
def get_df_callable_for_demultiplexer (rows : List BarcodeRow)
    (with_trim_columns : Bool) : Except String (List DemuxEntry) :=
  let fw := rows.map (fun r => r.fw_barcode.getD "")
  if fw.dedup.length = rows.length then
    Except.ok (rows.map (fun r =>
      { key := String.mk (squashWhitespace r.sample_name.data)
        start_barcode := r.fw_barcode.getD ""
        end_barcode := r.rv_barcode.getD ""
        trim_after_start := if with_trim_columns then r.trim_start else none
        trim_before_end := if with_trim_columns then r.trim_end else none }))
  else
    Except.error "the barcodes are not unique"

/-- Test fixture: forward matcher with pattern `ADAPTER`, one tolerated
error, end reporting (as in `test_locate_find_first_adapter`). -/
def cfgFwd : AdapterConfig := ⟨"ADAPTER".toList, 1, 7, true, false⟩

/-- Test fixture: the reverse matcher of `test_locate_end_partial_adapter`
(start reporting, minimal overlap 4, one tolerated error). -/
def cfgRev : AdapterConfig := ⟨"ADAPTER".toList, 1, 4, false, true⟩

/-- Test fixture: exact forward matcher with minimal overlap 4. -/
def cfgPart : AdapterConfig := ⟨"ADAPTER".toList, 0, 4, true, false⟩

/-- Test fixture: exact forward matcher with minimal overlap 5
(as in `test_partial_adapter`). -/
def cfgM5 : AdapterConfig := ⟨"ADAPTER".toList, 0, 5, true, false⟩

/-- Test fixture: a barcode table whose forward-barcode column is not
unique. -/
def rowsDup : List BarcodeRow :=
  [⟨some "ACGT", none, "sample one", none, none⟩,
    ⟨some "ACGT", some "GGTT", "sample two", none, none⟩]

/-- Test fixture: a sequencing read. -/
def readA : Read := ⟨"r1", "ACGT", "IIII"⟩

/-- Test fixture: another sequencing read. -/
def readB : Read := ⟨"r2", "GGTT", "FFFF"⟩

/-- Membership in the Full candidate list: exactly the in-budget full-length
windows, with their boundaries and error counts. -/
theorem mem_fullCandidates_iff {cfg : AdapterConfig} {q : List Char} {c : Candidate} :
    c ∈ fullCandidates cfg q ↔
      ∃ p, p + cfg.pattern.length ≤ q.length ∧
        fullWindowErrors cfg q p ≤ cfg.max_errors ∧
        c = ⟨CandKind.Full, p, p + cfg.pattern.length, fullWindowErrors cfg q p⟩ := by
  unfold fullCandidates
  by_cases hLN : cfg.pattern.length ≤ q.length
  · simp only [if_pos hLN, List.mem_map, List.mem_filter, List.mem_range,
      decide_eq_true_eq]
    constructor
    · rintro ⟨p, ⟨hp, he⟩, rfl⟩
      exact ⟨p, by omega, he, rfl⟩
    · rintro ⟨p, hp, he, rfl⟩
      exact ⟨p, ⟨by omega, he⟩, rfl⟩
  · simp only [if_neg hLN, List.not_mem_nil, false_iff, not_exists, not_and]
    intro p hp
    omega

/-- Every Full candidate list entry has kind `Full`, stop at `start + L`,
and lies inside the query. -/
theorem fullCandidates_shape {cfg : AdapterConfig} {q : List Char} {c : Candidate}
    (h : c ∈ fullCandidates cfg q) :
    c.kind = CandKind.Full ∧ c.stop = c.start + cfg.pattern.length ∧
      c.stop ≤ q.length ∧ c.errors ≤ cfg.max_errors := by
  rcases mem_fullCandidates_iff.mp h with ⟨p, hp, he, rfl⟩
  exact ⟨rfl, rfl, hp, he⟩

/-- The Full candidate list is empty exactly when no full-length window fits
the error budget. -/
theorem fullCandidates_eq_nil_iff {cfg : AdapterConfig} {q : List Char} :
    fullCandidates cfg q = [] ↔
      ∀ p, p + cfg.pattern.length ≤ q.length →
        cfg.max_errors < fullWindowErrors cfg q p := by
  rw [List.eq_nil_iff_forall_not_mem]
  constructor
  · intro h p hp
    by_contra hlt
    exact h ⟨CandKind.Full, p, p + cfg.pattern.length, fullWindowErrors cfg q p⟩
      (mem_fullCandidates_iff.mpr ⟨p, hp, by omega, rfl⟩)
  · intro h c hc
    rcases mem_fullCandidates_iff.mp hc with ⟨p, hp, he, rfl⟩
    exact absurd he (by have := h p hp; omega)

/-- The Full selection returns a member of the Full candidate list that
minimises the selection key. -/
theorem selectFull_spec {cfg : AdapterConfig} {q : List Char} {c : Candidate}
    (h : selectFull cfg q = some c) :
    c ∈ fullCandidates cfg q ∧
      ∀ c' ∈ fullCandidates cfg q,
        fullKey cfg.reverse_direction q.length c ≤
          fullKey cfg.reverse_direction q.length c' := by
  have hmem : c ∈ (fullCandidates cfg q).argmin
      (fullKey cfg.reverse_direction q.length) := by
    rw [Option.mem_def]; exact h
  exact ⟨List.argmin_mem hmem, fun c' hc' => List.le_of_mem_argmin hc' hmem⟩

/-- The Full selection is empty exactly when the Full candidate list is. -/
theorem selectFull_eq_none_iff {cfg : AdapterConfig} {q : List Char} :
    selectFull cfg q = none ↔ fullCandidates cfg q = [] := by
  unfold selectFull
  exact List.argmin_eq_none

/-- Decoding the lexicographic key: the error components are ordered. -/
theorem key_le_errors {e s e' s' B : Nat} (hs : s < B) (hs' : s' < B)
    (h : e * B + s ≤ e' * B + s') : e ≤ e' := by
  have hB : 0 < B := by omega
  have h1 : (e * B + s) / B = e := by
    rw [Nat.add_comm, Nat.add_mul_div_right _ _ hB, Nat.div_eq_of_lt hs]
    omega
  have h2 : (e' * B + s') / B = e' := by
    rw [Nat.add_comm, Nat.add_mul_div_right _ _ hB, Nat.div_eq_of_lt hs']
    omega
  calc e = (e * B + s) / B := h1.symm
    _ ≤ (e' * B + s') / B := Nat.div_le_div_right h
    _ = e' := h2

/-- Decoding the lexicographic key: on equal error components the second
components are ordered. -/
theorem key_le_snd {e s s' B : Nat} (h : e * B + s ≤ e * B + s') : s ≤ s' :=
  Nat.le_of_add_le_add_left h

/-- Membership in the overlap-length list: exactly the lengths between
`min_overlap` and `L - 1` that fit inside the query. -/
theorem mem_overlapLengths_iff {cfg : AdapterConfig} {N k : Nat} :
    k ∈ overlapLengths cfg N ↔
      cfg.min_overlap ≤ k ∧ k < cfg.pattern.length ∧ k ≤ N := by
  unfold overlapLengths
  simp only [List.mem_filter, List.mem_map, List.mem_range, decide_eq_true_eq]
  constructor
  · rintro ⟨⟨i, hi, rfl⟩, hk⟩
    refine ⟨by omega, by omega, hk⟩
  · rintro ⟨hmk, hkL, hkN⟩
    exact ⟨⟨cfg.pattern.length - 1 - k, by omega, by omega⟩, hkN⟩

/-- The overlap-length list is strictly descending: overlaps are tried
longest first. -/
theorem overlapLengths_sorted (cfg : AdapterConfig) (N : Nat) :
    (overlapLengths cfg N).Pairwise (· > ·) := by
  unfold overlapLengths
  apply List.Pairwise.filter
  rw [List.pairwise_map]
  apply List.Pairwise.imp_of_mem ?_ (List.pairwise_lt_range _)
  intro a b ha hb hab
  rw [List.mem_range] at ha hb
  omega

/-- On a strictly descending list, whatever `find?` returns is the largest
element satisfying the predicate. -/
theorem find_desc_max {p : Nat → Bool} {k : Nat} :
    ∀ {l : List Nat}, l.Pairwise (· > ·) → l.find? p = some k →
      ∀ j ∈ l, p j → j ≤ k
  | [], _, h => by simp at h
  | a :: t, hl, h => by
    have hat : ∀ x ∈ t, a > x := fun x hx => (List.pairwise_cons.mp hl).1 x hx
    by_cases hpa : p a
    · rw [List.find?_cons_of_pos _ hpa] at h
      obtain rfl : a = k := by injection h
      intro j hj _
      rcases List.mem_cons.mp hj with rfl | hjt
      · exact Nat.le_refl _
      · exact Nat.le_of_lt (hat j hjt)
    · rw [List.find?_cons_of_neg _ (by simpa using hpa)] at h
      intro j hj hpj
      rcases List.mem_cons.mp hj with rfl | hjt
      · exact absurd hpj hpa
      · exact find_desc_max (List.pairwise_cons.mp hl).2 h j hjt hpj

/-- On a strictly descending list, `find?` returns the element that
satisfies the predicate while everything larger fails it. -/
theorem find_desc_eq {p : Nat → Bool} {k : Nat} :
    ∀ {l : List Nat}, l.Pairwise (· > ·) → k ∈ l → p k →
      (∀ j ∈ l, k < j → ¬ p j) → l.find? p = some k
  | [], _, hk, _, _ => by simp at hk
  | a :: t, hl, hk, hpk, hfail => by
    have hat : ∀ x ∈ t, a > x := fun x hx => (List.pairwise_cons.mp hl).1 x hx
    rcases List.mem_cons.mp hk with rfl | hkt
    · exact List.find?_cons_of_pos _ hpk
    · have hak : a > k := hat k hkt
      have hpa : ¬ p a := hfail a (List.mem_cons_self _ _) hak
      rw [List.find?_cons_of_neg _ (by simpa using hpa)]
      exact find_desc_eq (List.pairwise_cons.mp hl).2 hkt hpk
        (fun j hj hkj => hfail j (List.mem_cons_of_mem _ hj) hkj)

/-- Shape of the boundary-partial result: the accepted overlap length is
eligible, within budget, maximal among the qualifying lengths, and yields the
direction-appropriate candidate. -/
theorem selectOverlap_spec {cfg : AdapterConfig} {q : List Char} {c : Candidate}
    (h : selectOverlap cfg q = some c) :
    ∃ k, c = overlapCandidate cfg q k ∧
      cfg.min_overlap ≤ k ∧ k < cfg.pattern.length ∧ k ≤ q.length ∧
      overlapErrors cfg q k ≤ cfg.max_errors ∧
      ∀ j, cfg.min_overlap ≤ j → j < cfg.pattern.length → j ≤ q.length →
        overlapErrors cfg q j ≤ cfg.max_errors → j ≤ k := by
  unfold selectOverlap at h
  rcases Option.map_eq_some'.mp h with ⟨k, hfind, rfl⟩
  have hkmem := List.mem_of_find?_eq_some hfind
  have hkp := List.find?_some hfind
  rw [decide_eq_true_eq] at hkp
  rcases mem_overlapLengths_iff.mp hkmem with ⟨h1, h2, h3⟩
  refine ⟨k, rfl, h1, h2, h3, hkp, ?_⟩
  intro j hj1 hj2 hj3 hje
  exact find_desc_max (overlapLengths_sorted cfg q.length) hfind j
    (mem_overlapLengths_iff.mpr ⟨hj1, hj2, hj3⟩) (by simpa using hje)

/-- The boundary-partial search fails exactly when no eligible overlap length
is within the error budget. -/
theorem selectOverlap_eq_none_iff {cfg : AdapterConfig} {q : List Char} :
    selectOverlap cfg q = none ↔
      ∀ k, cfg.min_overlap ≤ k → k < cfg.pattern.length → k ≤ q.length →
        cfg.max_errors < overlapErrors cfg q k := by
  unfold selectOverlap
  rw [Option.map_eq_none', List.find?_eq_none]
  constructor
  · intro h k h1 h2 h3
    have := h k (mem_overlapLengths_iff.mpr ⟨h1, h2, h3⟩)
    rw [decide_eq_true_eq] at this
    omega
  · intro h k hk
    rcases mem_overlapLengths_iff.mp hk with ⟨h1, h2, h3⟩
    have := h k h1 h2 h3
    simp only [decide_eq_true_eq]
    omega

/-- When the Full candidate list is empty, selection falls through to the
boundary-partial search. -/
theorem selectCandidate_of_no_full {cfg : AdapterConfig} {q : List Char}
    (h : fullCandidates cfg q = []) :
    selectCandidate cfg q = selectOverlap cfg q := by
  unfold selectCandidate
  rw [selectFull_eq_none_iff.mpr h]

/-- Any selected candidate has ordered boundaries that lie inside the
query. -/
theorem selectCandidate_wf {cfg : AdapterConfig} {q : List Char} {c : Candidate}
    (h : selectCandidate cfg q = some c) :
    c.start ≤ c.stop ∧ c.stop ≤ q.length := by
  unfold selectCandidate at h
  rcases hf : selectFull cfg q with _ | cf
  · rw [hf] at h
    rcases selectOverlap_spec h with ⟨k, rfl, _, _, hkN, _, _⟩
    unfold overlapCandidate
    by_cases hrev : cfg.reverse_direction
    · rw [if_pos hrev]
      exact ⟨Nat.sub_le _ _, Nat.le_refl _⟩
    · rw [if_neg hrev]
      exact ⟨Nat.zero_le _, hkN⟩
  · rw [hf] at h
    obtain rfl : cf = c := by injection h
    rcases fullCandidates_shape (selectFull_spec hf).1 with ⟨_, hstop, hN, _⟩
    omega

/-- A non-empty pattern routes `locate` through candidate selection and
coordinate reporting. -/
theorem locate_of_ne_nil {cfg : AdapterConfig} {q : List Char}
    (h : cfg.pattern ≠ []) :
    locate cfg q = (selectCandidate cfg q).map (reportPos cfg q.length) := by
  unfold locate
  rw [if_neg (by simpa [List.isEmpty_iff] using h)]

/-- The Full selection routes through to candidate selection. -/
theorem selectCandidate_of_full {cfg : AdapterConfig} {q : List Char} {c : Candidate}
    (h : selectFull cfg q = some c) : selectCandidate cfg q = some c := by
  unfold selectCandidate
  rw [h]

/-- C1: whenever at least one full-length window of the pattern lies within
the error budget, `locate` selects a Full candidate - never a boundary
partial - for every matcher configuration and direction mode. -/
theorem C1_full_match_priority (cfg : AdapterConfig) (q : List Char)
    (h : ∃ p, p + cfg.pattern.length ≤ q.length ∧
      fullWindowErrors cfg q p ≤ cfg.max_errors) :
    ∃ c, selectCandidate cfg q = some c ∧ c.kind = CandKind.Full ∧
      (cfg.pattern ≠ [] → locate cfg q = some (reportPos cfg q.length c)) := by
  rcases h with ⟨p, hp, he⟩
  have hmem : (⟨CandKind.Full, p, p + cfg.pattern.length,
      fullWindowErrors cfg q p⟩ : Candidate) ∈ fullCandidates cfg q :=
    mem_fullCandidates_iff.mpr ⟨p, hp, he, rfl⟩
  rcases hsf : selectFull cfg q with _ | c
  · exact absurd (selectFull_eq_none_iff.mp hsf) (List.ne_nil_of_mem hmem)
  · have hsel := selectCandidate_of_full hsf
    refine ⟨c, hsel, (fullCandidates_shape (selectFull_spec hsf).1).1, ?_⟩
    intro hpat
    rw [locate_of_ne_nil hpat, hsel, Option.map_some']

/-- C2: for every selected candidate, `locate` reports
`boundary = report_end ? end : start` shifted by `-N` in reverse mode; the
reported position is non-negative in forward mode, non-positive in reverse
mode, and `N + reported` recovers the absolute boundary. -/
theorem C2_coordinate_reporting (cfg : AdapterConfig) (q : List Char)
    (c : Candidate) (hne : cfg.pattern ≠ [])
    (h : selectCandidate cfg q = some c) :
    locate cfg q = some (if cfg.reverse_direction then
        (if cfg.report_end then (c.stop : Int) else (c.start : Int)) - (q.length : Int)
      else (if cfg.report_end then (c.stop : Int) else (c.start : Int))) ∧
    (cfg.reverse_direction = false → ∀ r, locate cfg q = some r → 0 ≤ r) ∧
    (cfg.reverse_direction = true → ∀ r, locate cfg q = some r → r ≤ 0 ∧
      (q.length : Int) + r =
        (if cfg.report_end then (c.stop : Int) else (c.start : Int))) := by
  obtain ⟨hss, hsN⟩ := selectCandidate_wf h
  have hloc : locate cfg q = some (reportPos cfg q.length c) := by
    rw [locate_of_ne_nil hne, h, Option.map_some']
  refine ⟨by rw [hloc]; rfl, ?_, ?_⟩
  · intro hrev r hr
    rw [hloc] at hr
    obtain rfl := Option.some.inj hr
    simp only [reportPos]
    rw [if_neg (by simp [hrev])]
    split <;> omega
  · intro hrev r hr
    rw [hloc] at hr
    obtain rfl := Option.some.inj hr
    simp only [reportPos]
    rw [if_pos hrev]
    constructor
    · split <;> omega
    · by_cases hre : cfg.report_end
      · rw [if_pos hre]
        omega
      · rw [if_neg hre]
        omega

/-- C3: with several in-budget Full candidates, the selected one has the
minimum error count; on equal error counts the smallest start wins in
forward mode and the largest start wins in reverse mode. -/
theorem C3_full_selection_tie_break (cfg : AdapterConfig) (q : List Char)
    (h : ∃ p, p + cfg.pattern.length ≤ q.length ∧
      fullWindowErrors cfg q p ≤ cfg.max_errors) :
    ∃ c, selectCandidate cfg q = some c ∧ c.kind = CandKind.Full ∧
      (∀ c' ∈ fullCandidates cfg q, c.errors ≤ c'.errors) ∧
      (∀ c' ∈ fullCandidates cfg q, c'.errors = c.errors →
        (cfg.reverse_direction = false → c.start ≤ c'.start) ∧
        (cfg.reverse_direction = true → c'.start ≤ c.start)) := by
  rcases h with ⟨p, hp, he⟩
  have hmem : (⟨CandKind.Full, p, p + cfg.pattern.length,
      fullWindowErrors cfg q p⟩ : Candidate) ∈ fullCandidates cfg q :=
    mem_fullCandidates_iff.mpr ⟨p, hp, he, rfl⟩
  rcases hsf : selectFull cfg q with _ | c
  · exact absurd (selectFull_eq_none_iff.mp hsf) (List.ne_nil_of_mem hmem)
  · obtain ⟨hcmem, hmin⟩ := selectFull_spec hsf
    obtain ⟨hkind, hstop, hN, _⟩ := fullCandidates_shape hcmem
    refine ⟨c, selectCandidate_of_full hsf, hkind, ?_, ?_⟩
    · intro c' hc'
      obtain ⟨_, hstop', hN', _⟩ := fullCandidates_shape hc'
      have hkey := hmin c' hc'
      unfold fullKey at hkey
      exact key_le_errors (by split <;> omega) (by split <;> omega) hkey
    · intro c' hc' herr
      obtain ⟨_, hstop', hN', _⟩ := fullCandidates_shape hc'
      have hkey := hmin c' hc'
      unfold fullKey at hkey
      rw [herr] at hkey
      have hsnd := key_le_snd hkey
      constructor
      · intro hrev
        rw [hrev] at hsnd
        simpa using hsnd
      · intro hrev
        rw [hrev] at hsnd
        simp only [if_true] at hsnd
        omega

/-- C4: with no qualifying Full candidate, the boundary-partial search
considers only the direction-appropriate boundary (FrontPartial forward,
BackPartial reverse), tries overlap lengths longest first accepting the
first one within budget, and `locate` returns `none` exactly when no
eligible overlap length qualifies. -/
theorem C4_boundary_partial_rule (cfg : AdapterConfig) (q : List Char)
    (hne : cfg.pattern ≠ [])
    (hfull : ∀ p, p + cfg.pattern.length ≤ q.length →
      cfg.max_errors < fullWindowErrors cfg q p) :
    (locate cfg q = none ↔
      ∀ k, cfg.min_overlap ≤ k → k < cfg.pattern.length → k ≤ q.length →
        cfg.max_errors < overlapErrors cfg q k) ∧
    (∀ c, selectCandidate cfg q = some c →
      c.kind = (if cfg.reverse_direction then CandKind.BackPart
        else CandKind.FrontPart) ∧
      cfg.min_overlap ≤ c.stop - c.start ∧
      c.stop - c.start < cfg.pattern.length ∧
      overlapErrors cfg q (c.stop - c.start) ≤ cfg.max_errors ∧
      (∀ k, cfg.min_overlap ≤ k → k < cfg.pattern.length → k ≤ q.length →
        overlapErrors cfg q k ≤ cfg.max_errors → k ≤ c.stop - c.start)) := by
  have hnil : fullCandidates cfg q = [] := fullCandidates_eq_nil_iff.mpr hfull
  have hsel := selectCandidate_of_no_full hnil
  constructor
  · rw [locate_of_ne_nil hne, hsel, Option.map_eq_none']
    exact selectOverlap_eq_none_iff
  · intro c hc
    rw [hsel] at hc
    rcases selectOverlap_spec hc with ⟨k, rfl, h1, h2, h3, h4, h5⟩
    have hk : (overlapCandidate cfg q k).stop - (overlapCandidate cfg q k).start
        = k := by
      unfold overlapCandidate
      by_cases hrev : cfg.reverse_direction
      · rw [if_pos hrev]
        show q.length - (q.length - k) = k
        omega
      · rw [if_neg hrev]
        show k - 0 = k
        omega
    have hkind : (overlapCandidate cfg q k).kind =
        (if cfg.reverse_direction then CandKind.BackPart
          else CandKind.FrontPart) := by
      unfold overlapCandidate
      by_cases hrev : cfg.reverse_direction
      · rw [if_pos hrev, if_pos hrev]
      · rw [if_neg hrev, if_neg hrev]
    rw [hk]
    exact ⟨hkind, h1, h2, h4, h5⟩

/-- C5: with only boundary-partial candidates available, an overlap of
length `min_overlap - 1` (or any shorter one) is rejected - `locate`
returns `none` when every eligible length fails the budget - while an
overlap of exactly `min_overlap` within budget is accepted. -/
theorem C5_min_overlap_threshold (cfg : AdapterConfig) (q : List Char)
    (hne : cfg.pattern ≠ [])
    (hfull : ∀ p, p + cfg.pattern.length ≤ q.length →
      cfg.max_errors < fullWindowErrors cfg q p) :
    ((∀ k, cfg.min_overlap ≤ k → k < cfg.pattern.length → k ≤ q.length →
        cfg.max_errors < overlapErrors cfg q k) → locate cfg q = none) ∧
    (cfg.min_overlap < cfg.pattern.length → cfg.min_overlap ≤ q.length →
      overlapErrors cfg q cfg.min_overlap ≤ cfg.max_errors →
      (∀ k, cfg.min_overlap < k → k < cfg.pattern.length → k ≤ q.length →
        cfg.max_errors < overlapErrors cfg q k) →
      selectCandidate cfg q = some (overlapCandidate cfg q cfg.min_overlap) ∧
      locate cfg q = some (reportPos cfg q.length
        (overlapCandidate cfg q cfg.min_overlap))) := by
  have hnil : fullCandidates cfg q = [] := fullCandidates_eq_nil_iff.mpr hfull
  have hsel := selectCandidate_of_no_full hnil
  constructor
  · intro hall
    rw [locate_of_ne_nil hne, hsel, Option.map_eq_none']
    exact selectOverlap_eq_none_iff.mpr hall
  · intro hmL hmN herr hlarger
    have hfind : (overlapLengths cfg q.length).find?
        (fun k => overlapErrors cfg q k ≤ cfg.max_errors) =
          some cfg.min_overlap := by
      apply find_desc_eq (overlapLengths_sorted cfg q.length)
        (mem_overlapLengths_iff.mpr ⟨Nat.le_refl _, hmL, hmN⟩)
        (by simpa using herr)
      intro j hj hmj
      rcases mem_overlapLengths_iff.mp hj with ⟨_, hj2, hj3⟩
      have := hlarger j hmj hj2 hj3
      simp only [decide_eq_true_eq]
      omega
    have hso : selectOverlap cfg q =
        some (overlapCandidate cfg q cfg.min_overlap) := by
      unfold selectOverlap
      rw [hfind, Option.map_some']
    refine ⟨by rw [hsel, hso], ?_⟩
    rw [locate_of_ne_nil hne, hsel, hso, Option.map_some']

/-- C6: a window of the pattern's full length whose end coincides exactly
with the query boundary is classified and scored as a Full candidate, never
as a boundary partial; partial status depends only on the available length
being shorter than the pattern, never on the window's position. -/
theorem C6_full_at_boundary (cfg : AdapterConfig) (q : List Char) (p : Nat)
    (hne : cfg.pattern ≠ []) (hp : p + cfg.pattern.length = q.length)
    (herr : fullWindowErrors cfg q p ≤ cfg.max_errors) :
    (∃ c, selectCandidate cfg q = some c ∧ c.kind = CandKind.Full ∧
      c.stop - c.start = cfg.pattern.length ∧
      locate cfg q = some (reportPos cfg q.length c)) ∧
    (∀ cfg' : AdapterConfig, ∀ q' : List Char, ∀ c' : Candidate,
      selectCandidate cfg' q' = some c' → c'.kind ≠ CandKind.Full →
      c'.stop - c'.start < cfg'.pattern.length) := by
  constructor
  · have hmem : (⟨CandKind.Full, p, p + cfg.pattern.length,
        fullWindowErrors cfg q p⟩ : Candidate) ∈ fullCandidates cfg q :=
      mem_fullCandidates_iff.mpr ⟨p, Nat.le_of_eq hp, herr, rfl⟩
    rcases hsf : selectFull cfg q with _ | c
    · exact absurd (selectFull_eq_none_iff.mp hsf) (List.ne_nil_of_mem hmem)
    · have hsel := selectCandidate_of_full hsf
      obtain ⟨hkind, hstop, _, _⟩ := fullCandidates_shape (selectFull_spec hsf).1
      refine ⟨c, hsel, hkind, by omega, ?_⟩
      rw [locate_of_ne_nil hne, hsel, Option.map_some']
  · intro cfg' q' c' hc' hknd
    rcases hsf : selectFull cfg' q' with _ | cf
    · have hov : selectCandidate cfg' q' = selectOverlap cfg' q' := by
        unfold selectCandidate
        rw [hsf]
      rw [hov] at hc'
      rcases selectOverlap_spec hc' with ⟨k, rfl, _, hkL, hkN, _, _⟩
      unfold overlapCandidate
      by_cases hrev : cfg'.reverse_direction
      · rw [if_pos hrev]
        show q'.length - (q'.length - k) < cfg'.pattern.length
        omega
      · rw [if_neg hrev]
        show k - 0 < cfg'.pattern.length
        omega
    · rw [selectCandidate_of_full hsf] at hc'
      obtain rfl := Option.some.inj hc'
      exact absurd (fullCandidates_shape (selectFull_spec hsf).1).1 hknd

/-- C7: a matcher built from an empty pattern reports position `0` for every
query, regardless of the other configuration fields. -/
theorem C7_empty_pattern (cfg : AdapterConfig) (q : List Char)
    (h : cfg.pattern = []) : locate cfg q = some 0 := by
  unfold locate
  rw [if_pos (by simp [h])]

/-- C8: constructing a matcher with `min_overlap` greater than the pattern
length fails fast with a configuration error; a successful construction
stores `min_overlap` unchanged - the value is never silently clamped. -/
theorem C8_build_rejects_overlong_min_overlap (pattern : List Char)
    (max_errors : Nat) (anchor_end : Bool) (min_overlap : Nat)
    (reverse_direction : Bool) :
    (pattern.length < min_overlap →
      build pattern max_errors anchor_end min_overlap reverse_direction =
        Except.error "minimal overlap exceeds adapter length") ∧
    (∀ cfg, build pattern max_errors anchor_end min_overlap reverse_direction =
        Except.ok cfg →
      cfg = ⟨pattern, max_errors, min_overlap, anchor_end, reverse_direction⟩ ∧
      min_overlap ≤ pattern.length) := by
  constructor
  · intro h
    unfold build
    rw [if_pos h]
  · intro cfg h
    unfold build at h
    by_cases hm : pattern.length < min_overlap
    · rw [if_pos hm] at h
      exact Except.noConfusion h
    · rw [if_neg hm] at h
      refine ⟨?_, by omega⟩
      have := Except.ok.inj h
      exact this.symm

/-- C9: the barcode-table callable errors out whenever two distinct rows
share a forward barcode, and succeeds only on tables whose (NaN-filled)
forward-barcode column is pairwise distinct. -/
theorem C9_barcode_uniqueness (rows : List BarcodeRow)
    (with_trim_columns : Bool) :
    (∀ i j (hi : i < rows.length) (hj : j < rows.length), i ≠ j →
      (rows.get ⟨i, hi⟩).fw_barcode = (rows.get ⟨j, hj⟩).fw_barcode →
      get_df_callable_for_demultiplexer rows with_trim_columns =
        Except.error "the barcodes are not unique") ∧
    (∀ out, get_df_callable_for_demultiplexer rows with_trim_columns =
        Except.ok out →
      (rows.map (fun r => r.fw_barcode.getD "")).Nodup) := by
  have hlen : (rows.map (fun r => r.fw_barcode.getD "")).length = rows.length :=
    List.length_map _ _
  constructor
  · intro i j hi hj hij heq
    have hnd : ¬ (rows.map (fun r => r.fw_barcode.getD "")).Nodup := by
      intro hnodup
      have hgi : i < (rows.map (fun r => r.fw_barcode.getD "")).length := by omega
      have hgj : j < (rows.map (fun r => r.fw_barcode.getD "")).length := by omega
      have hval : (rows.map (fun r => r.fw_barcode.getD ""))[i] =
          (rows.map (fun r => r.fw_barcode.getD ""))[j] := by
        simp only [List.getElem_map]
        simp only [List.get_eq_getElem] at heq
        rw [heq]
      exact hij (hnodup.getElem_inj_iff.mp hval)
    have hcond : ¬ ((rows.map (fun r => r.fw_barcode.getD "")).dedup.length =
        rows.length) := by
      intro hc
      apply hnd
      have hde : (rows.map (fun r => r.fw_barcode.getD "")).dedup =
          rows.map (fun r => r.fw_barcode.getD "") :=
        (List.dedup_sublist _).eq_of_length (by omega)
      rw [← hde]
      exact List.nodup_dedup _
    simp only [get_df_callable_for_demultiplexer]
    rw [if_neg hcond]
  · intro out hok
    by_cases hc : (rows.map (fun r => r.fw_barcode.getD "")).dedup.length =
        rows.length
    · have hde : (rows.map (fun r => r.fw_barcode.getD "")).dedup =
          rows.map (fun r => r.fw_barcode.getD "") :=
        (List.dedup_sublist _).eq_of_length (by omega)
      rw [← hde]
      exact List.nodup_dedup _
    · simp only [get_df_callable_for_demultiplexer] at hok
      rw [if_neg hc] at hok
      exact Except.noConfusion hok

/-- C10: `Fragment.copy` succeeds exactly on fragments constructed from two
reads, returning a fragment whose reads equal the originals; a fragment
built from a single read (or any other count) has no `Read2`, so `copy`
fails. -/
theorem C10_fragment_copy (rs : List Read) (f : Fragment)
    (h : mkFragment rs = some f) :
    (f.copy.isSome ↔ rs.length = 2) ∧
    (∀ r1 r2, rs = [r1, r2] →
      f.copy = some f ∧ f.Read1 = r1 ∧ f.Read2 = some r2) := by
  cases rs with
  | nil => simp [mkFragment] at h
  | cons r1 rest =>
    cases rest with
    | nil =>
      obtain rfl : (⟨[r1], r1, none⟩ : Fragment) = f := Option.some.inj h
      constructor
      · have hc : Fragment.copy ⟨[r1], r1, none⟩ = none := rfl
        rw [hc]
        simp
      · intro r1' r2' he
        exact absurd he (by simp)
    | cons r2 rest2 =>
      cases rest2 with
      | nil =>
        obtain rfl : (⟨[r1, r2], r1, some r2⟩ : Fragment) = f := Option.some.inj h
        constructor
        · have hc : Fragment.copy ⟨[r1, r2], r1, some r2⟩ =
              some ⟨[r1, r2], r1, some r2⟩ := rfl
          rw [hc]
          simp
        · intro r1' r2' he
          obtain ⟨rfl, rfl⟩ : r1 = r1' ∧ r2 = r2' := by simpa using he
          exact ⟨rfl, rfl, rfl⟩
      | cons r3 rest3 =>
        obtain rfl : (⟨r1 :: r2 :: r3 :: rest3, r1, none⟩ : Fragment) = f :=
          Option.some.inj h
        constructor
        · have hc : Fragment.copy ⟨r1 :: r2 :: r3 :: rest3, r1, none⟩ = none := rfl
          rw [hc]
          simp
        · intro r1' r2' he
          exact absurd he (by simp)

/-- Model validation against `test_find_first_adapter_end_index`
(`tests/test_adapter.py`): the first exact occurrence, end boundary,
forward coordinates. -/
theorem modelCheck_find_first_end :
    locate ⟨"ADAPTER".toList, 0, 7, true, false⟩
      "TCA_ADAPTER_TGCCCAGGGTCCGGAGGC_TTTCCC".toList = some 11 := by decide

/-- Model validation against `test_find_last_adapter_end_index`
(`tests/test_adapter.py`): the last exact occurrence, end boundary,
reverse coordinates. -/
theorem modelCheck_find_last_end :
    locate ⟨"ADAPTER".toList, 0, 7, true, true⟩
      "TCA_ADAPTER_TGCCCAGGGTCCGGAGGC_TTTCCC".toList = some (-26) := by decide

/-- Model validation against `test_partial_adapter`
(`tests/test_adapter.py`): front partial of overlap 5 against
`minimal_overlap=5`, and rejection at overlap 4. -/
theorem modelCheck_front_overlap :
    locate ⟨"ADAPTER".toList, 0, 5, true, false⟩ "APTER_REMAIN".toList = some 5 ∧
    locate ⟨"ADAPTER".toList, 0, 5, true, false⟩ "PTER_REMAIN".toList = none := by decide

/-- Model validation against `test_partial_adapter`
(`tests/test_adapter.py`): back partial of overlap 5 in reverse mode, and
rejection at overlap 4. -/
theorem modelCheck_back_overlap :
    locate ⟨"ADAPTER".toList, 0, 5, false, true⟩ "REMAIN_ADAPT".toList = some (-5) ∧
    locate ⟨"ADAPTER".toList, 0, 5, false, true⟩ "REMAIN_ADAP".toList = none := by decide

/-- Model validation against `test_locate_end_partial_adapter`
(`tests/test_adapter.py`): a length-7 window ending exactly at the query
boundary with one substitution counts as Full, and a full match beats the
back partial `ADAP`. -/
theorem modelCheck_end_window :
    locate ⟨"ADAPTER".toList, 1, 4, false, true⟩ "TGCC_DAPTER".toList = some (-7) ∧
    locate ⟨"ADAPTER".toList, 1, 4, false, true⟩ "TGCC_APTER".toList = none ∧
    locate ⟨"ADAPTER".toList, 1, 4, false, true⟩ "TCA_ADDPTER_CTTTTG_ADAP".toList
      = some (-19) ∧
    locate ⟨"ADAPTER".toList, 1, 4, false, true⟩ "TCA_ADDDTER_CTTTTG_ADAP".toList
      = some (-4) := by decide

/-- Model validation against `test_locate_find_first_adapter`
(`tests/test_adapter.py`): with two in-budget full occurrences the
lower-error one wins, and on equal errors the leftmost wins in forward
mode. -/
theorem modelCheck_tie_break :
    locate ⟨"ADAPTER".toList, 2, 7, true, false⟩
      "TCA_ADDPTTR_TGCCCAGGGTCCGGAGGC_ADAPTTR".toList = some 38 ∧
    locate ⟨"ADAPTER".toList, 1, 7, true, false⟩
      "TCA_ADDPTER_TGCCCAGGGTCCGGAGGC_ADAPTTR".toList = some 11 := by decide

/-- Witness for C1: in `XADAPTERX` the exact full window at position 1
satisfies the hypothesis, and a Full candidate is selected. -/
theorem C1_full_match_priority_witness :
    ∃ c, selectCandidate cfgFwd "XADAPTERX".toList = some c ∧
      c.kind = CandKind.Full := by
  obtain ⟨c, h1, h2, _⟩ := C1_full_match_priority cfgFwd "XADAPTERX".toList
    ⟨1, by decide, by decide⟩
  exact ⟨c, h1, h2⟩

/-- Witness for C2: the selected Full candidate of `TGCC_DAPTER` in the
reverse matcher reports `4 - 11 = -7`. -/
theorem C2_coordinate_reporting_witness :
    locate cfgRev "TGCC_DAPTER".toList = some (-7) := by
  have h := (C2_coordinate_reporting cfgRev "TGCC_DAPTER".toList
    ⟨CandKind.Full, 4, 11, 1⟩ (by decide) (by decide)).1
  rw [h]
  decide

/-- Witness for C3: `ADAPTXR_ADAPTER` holds two in-budget full windows and
the selected one has minimal errors. -/
theorem C3_full_selection_tie_break_witness :
    ∃ c, selectCandidate cfgFwd "ADAPTXR_ADAPTER".toList = some c ∧
      c.kind = CandKind.Full ∧
      ∀ c' ∈ fullCandidates cfgFwd "ADAPTXR_ADAPTER".toList,
        c.errors ≤ c'.errors := by
  obtain ⟨c, h1, h2, h3, _⟩ := C3_full_selection_tie_break cfgFwd
    "ADAPTXR_ADAPTER".toList ⟨8, by decide, by decide⟩
  exact ⟨c, h1, h2, h3⟩

/-- Witness for C4: `APTER_XYZ` has no full window within budget and the
forward matcher selects a FrontPartial candidate of overlap 5. -/
theorem C4_boundary_partial_rule_witness :
    selectCandidate cfgPart "APTER_XYZ".toList =
      some ⟨CandKind.FrontPart, 0, 5, 0⟩ ∧
    (⟨CandKind.FrontPart, 0, 5, 0⟩ : Candidate).kind =
      (if cfgPart.reverse_direction then CandKind.BackPart
        else CandKind.FrontPart) := by
  have h := C4_boundary_partial_rule cfgPart "APTER_XYZ".toList (by decide)
    (by
      intro p hp
      have h7 : cfgPart.pattern.length = 7 := rfl
      have h9 : ("APTER_XYZ".toList).length = 9 := rfl
      have hp2 : p ≤ 2 := by omega
      interval_cases p <;> decide)
  exact ⟨by decide, (h.2 _ (by decide)).1⟩

/-- Witness for C5: with minimal overlap 5, the overlap-5 front partial of
`APTER_XYZ` is accepted and reported at position 5. -/
theorem C5_min_overlap_threshold_witness :
    locate cfgM5 "APTER_XYZ".toList = some 5 := by
  have h := (C5_min_overlap_threshold cfgM5 "APTER_XYZ".toList (by decide)
    (by
      intro p hp
      have h7 : cfgM5.pattern.length = 7 := rfl
      have h9 : ("APTER_XYZ".toList).length = 9 := rfl
      have hp2 : p ≤ 2 := by omega
      interval_cases p <;> decide)).2
    (by decide) (by decide) (by decide)
    (by
      intro k h1 h2 h3
      have h7 : cfgM5.pattern.length = 7 := rfl
      have hm : cfgM5.min_overlap = 5 := rfl
      have hk6 : k = 6 := by omega
      subst hk6
      decide)
  rw [h.2]
  decide

/-- Witness for C6: the window of `TGCC_DAPTER` ending exactly at the query
boundary is selected as a Full candidate of the pattern's full length. -/
theorem C6_full_at_boundary_witness :
    ∃ c, selectCandidate cfgRev "TGCC_DAPTER".toList = some c ∧
      c.kind = CandKind.Full ∧
      c.stop - c.start = cfgRev.pattern.length ∧
      locate cfgRev "TGCC_DAPTER".toList =
        some (reportPos cfgRev ("TGCC_DAPTER".toList).length c) :=
  (C6_full_at_boundary cfgRev "TGCC_DAPTER".toList 4 (by decide) (by decide)
    (by decide)).1

/-- Witness for C7: the empty-pattern matcher reports `0` on `ACGT`. -/
theorem C7_empty_pattern_witness :
    locate ⟨[], 0, 0, true, false⟩ "ACGT".toList = some 0 :=
  C7_empty_pattern ⟨[], 0, 0, true, false⟩ "ACGT".toList rfl

/-- Witness for C8: a two-symbol pattern with `min_overlap = 5` is rejected
at construction. -/
theorem C8_build_rejects_overlong_min_overlap_witness :
    build "AD".toList 0 true 5 false =
      Except.error "minimal overlap exceeds adapter length" :=
  (C8_build_rejects_overlong_min_overlap "AD".toList 0 true 5 false).1
    (by decide)

/-- Witness for C9: a table with a duplicated forward barcode errors out. -/
theorem C9_barcode_uniqueness_witness :
    get_df_callable_for_demultiplexer rowsDup false =
      Except.error "the barcodes are not unique" :=
  (C9_barcode_uniqueness rowsDup false).1 0 1 (by decide) (by decide)
    (by decide) (by decide)

/-- Witness for C10: copying a two-read fragment succeeds and returns an
equal fragment. -/
theorem C10_fragment_copy_witness :
    Fragment.copy ⟨[readA, readB], readA, some readB⟩ =
      some ⟨[readA, readB], readA, some readB⟩ := by
  have h := C10_fragment_copy [readA, readB]
    ⟨[readA, readB], readA, some readB⟩ rfl
  exact (h.2 readA readB rfl).1
